import Mathlib

/-!
# Verification of the version-chain manager (`src/backend/storage/vcluster/vchain.c`)

This development gives a shallow embedding of the concurrent version-chain
manager: `VChainLookupLocator`, `VChainAppendLocator` and `VChainFixUpOne`.

Modelling conventions:
* The shared arena (`dsa_vcluster`) is a total map from offsets
  (`dsa_pointer`, modelled as `Nat`) to `VLocator` records; `dsa_get_address`
  is function application.
* Straight-line code is embedded as a state transformer that additionally
  emits a trace of events (loads, stores to link fields, flag exchanges,
  the memory fence, the timestamp stamp), so that ordering claims can be
  stated over the produced trace.
* The hash table of `vchain_hash.c` (the KeyIndex) is external to the given
  source file; where a claim depends on it, it is modelled from the spec and
  marked as such in its doc comment.
* The backward walk of `VChainLookupLocator` is given fuel, since the C loop
  terminates only on well-formed chains; `outOfFuel` marks an exhausted
  budget and is proved unreachable on the well-formed chains considered.
-/

namespace VChain

/-- Tri-state synchronization flag of a locator (`VLocatorFlag`):
`VL_WINNER` is the idle/winner value, `VL_APPEND` marks a node claimed by an
appender, `VL_DELETE` marks a node claimed by the cutter (remover). -/
inductive VLocatorFlag where
  | VL_WINNER
  | VL_APPEND
  | VL_DELETE
deriving DecidableEq, Repr

/-- One entry of a version chain (`VLocator`): the stable arena offsets
`dsap` (self), `dsap_prev`, `dsap_next`, the creator transaction id `xmin`,
the synchronization flag, and the deletion timestamp (`none` until the node
is logically deleted). -/
structure VLocator where
  dsap : Nat
  dsap_prev : Nat
  dsap_next : Nat
  xmin : Nat
  flag : VLocatorFlag
  timestamp : Option Nat
deriving DecidableEq, Repr

/-- The shared arena: a total map from offsets to locators. -/
def Mem : Type := Nat → VLocator

/-- The two link fields of a locator. -/
inductive Field where
  | fprev
  | fnext
deriving DecidableEq, Repr

/-- Store to a link field of the locator at offset `off`. -/
def setField (mem : Mem) (off : Nat) (f : Field) (v : Nat) : Mem :=
  fun o =>
    if o = off then
      match f with
      | .fprev => { mem off with dsap_prev := v }
      | .fnext => { mem off with dsap_next := v }
    else mem o

/-- Store to the synchronization flag of the locator at offset `off`. -/
def setFlag (mem : Mem) (off : Nat) (fl : VLocatorFlag) : Mem :=
  fun o => if o = off then { mem off with flag := fl } else mem o

/-- Store of the deletion timestamp of the locator at offset `off`. -/
def setStamp (mem : Mem) (off : Nat) (ts : Nat) : Mem :=
  fun o => if o = off then { mem off with timestamp := some ts } else mem o

/-! ## Lookup (`VChainLookupLocator`, vchain.c lines 65–131) -/

/-- Events emitted by a `Lookup` call: KeyIndex partition lock traffic,
epoch publication (`SetTimestamp`) and retraction (`ClearTimestamp`), and
dereference of a chain node through the arena (`dsa_get_address`). -/
inductive LEvent where
  | acquireShared
  | release
  | setTimestamp
  | clearTimestamp
  | deref (off : Nat)
deriving DecidableEq, Repr

/-- Result of a `Lookup` call; `found off` models `*ret_locator` being set to
the node at `off` with return value `true`, `notFound` models returning
`false`, and `outOfFuel` marks an exhausted walk budget. -/
inductive LookupResult where
  | found (off : Nat)
  | notFound
  | outOfFuel
deriving DecidableEq, Repr

/-- The backward walk of `VChainLookupLocator` (the `while` loop at lines
110–124): starting from `curOff`, stop with `notFound` on reaching the
anchor (`locator->dsap == chain->dsap`), stop with `found` at the first node
whose creator is visible (`!XidInMVCCSnapshot(locator->xmin, snapshot)`),
otherwise follow `dsap_prev`.  Each terminal branch emits the
`ClearTimestamp` of the corresponding exit path; each step emits the
dereference of the predecessor. -/
def lookupWalk (mem : Mem) (anchorDsap : Nat) (inSnap : Nat → Bool) :
    Nat → Nat → List LEvent × LookupResult
  | _, 0 => ([], .outOfFuel)
  | curOff, fuel + 1 =>
    let cur := mem curOff
    if cur.dsap = anchorDsap then
      ([.clearTimestamp], .notFound)
    else if inSnap cur.xmin then
      let rest := lookupWalk mem anchorDsap inSnap cur.dsap_prev fuel
      (.deref cur.dsap_prev :: rest.1, rest.2)
    else
      ([.clearTimestamp], .found curOff)

/-- `VChainLookupLocator` (lines 65–131).  `keyIndex` models
`VChainHashLookup` for the primary key, `inSnap` models
`XidInMVCCSnapshot(xmin, snapshot)` (`true` = in snapshot = invisible).
On a hash miss the call returns before publishing an epoch; on a hit it
publishes the epoch (`SetTimestamp`, line 91) before the first chain
dereference (line 93), returns `notFound` at once on an empty chain
(`chain->dsap_prev == chain->dsap`, line 94), and otherwise walks backward
from the tail. -/
def VChainLookupLocator (keyIndex : Nat → Option Nat) (mem : Mem)
    (inSnap : Nat → Bool) (key : Nat) (fuel : Nat) :
    List LEvent × LookupResult :=
  match keyIndex key with
  | none => ([.acquireShared, .release], .notFound)
  | some dsapChain =>
    let chain := mem dsapChain
    if chain.dsap_prev = chain.dsap then
      ([.acquireShared, .release, .setTimestamp, .deref dsapChain,
        .clearTimestamp], .notFound)
    else
      let walk := lookupWalk mem chain.dsap inSnap chain.dsap_prev fuel
      (LEvent.acquireShared :: .release :: .setTimestamp :: .deref dsapChain ::
        .deref chain.dsap_prev :: walk.1, walk.2)

/-! ### A concrete well-formed chain, for the functional claims -/

/-- A memory holding a chain of `N` versions for one key: the anchor (dummy)
node at offset `0`, version `i` (oldest = 1, newest = `N`) at offset `i`
with `xmin = i`, circularly linked (`anchor.prev` is the tail `N`;
`anchor.prev = anchor.self` when `N = 0`). -/
def mkChainMem (N : Nat) : Mem := fun o =>
  if o = 0 then
    ⟨0, N, if N = 0 then 0 else 1, 0, .VL_WINNER, none⟩
  else if o ≤ N then
    ⟨o, o - 1, if o = N then 0 else o + 1, o, .VL_WINNER, none⟩
  else
    ⟨o, o, o, 0, .VL_WINNER, none⟩

/-- The newest index `i ≤ j` whose creator is visible under `inSnap`
(walking indices downward), `none` if every index in `1..j` is invisible. -/
def firstVisible (inSnap : Nat → Bool) : Nat → Option Nat
  | 0 => none
  | j + 1 => if inSnap (j + 1) then firstVisible inSnap j else some (j + 1)

/-! ## Append and Fixup (`VChainAppendLocator`, `VChainFixUpOne`) -/

/-- Events emitted by `Append`/`Fixup`: arena loads, atomic flag exchanges
(`__sync_lock_test_and_set`, recording the stored and the captured value),
stores to link fields, the memory fence (`pg_memory_barrier`), the deletion
timestamp stamp, KeyIndex operations and frees.  The last two constructors
never occur in a `Fixup` trace; having them in the vocabulary makes that
absence a statement rather than a tautology. -/
inductive CEvent where
  | load (off : Nat)
  | xchg (off : Nat) (stored captured : VLocatorFlag)
  | store (off : Nat) (f : Field) (v : Nat)
  | fence
  | stamp (off : Nat) (epoch : Nat)
  | keyIndexOp
  | free (off : Nat)
deriving DecidableEq, Repr

/-- `VChainFixUpOne(mid)` (lines 225–249): read `mid`'s neighbour offsets
and resolve them, unlink (`prev->dsap_next = dsap_next`;
`next->dsap_prev = dsap_prev`), issue the memory barrier
(`pg_memory_barrier`), then stamp `mid->timestamp` with the current epoch
(`GetCurrentTimestamp()`, passed in as `epoch`). -/
def VChainFixUpOne (mem : Mem) (midOff : Nat) (epoch : Nat) :
    Mem × List CEvent :=
  let dsap_prev := (mem midOff).dsap_prev
  let dsap_next := (mem midOff).dsap_next
  let mem1 := setField mem dsap_prev .fnext dsap_next
  let mem2 := setField mem1 dsap_next .fprev dsap_prev
  let mem3 := setStamp mem2 midOff epoch
  (mem3,
   [.load dsap_prev, .load dsap_next,
    .store dsap_prev .fnext dsap_next,
    .store dsap_next .fprev dsap_prev,
    .fence,
    .stamp midOff epoch])

/-- Outcome of one iteration of `Append`'s consensus protocol. -/
inductive AppendOutcome where
  | retry
  | doneNoFixup
  | doneWithFixup
  | assertFailure
deriving DecidableEq, Repr

/-- One iteration of `VChainAppendLocator`'s consensus protocol (lines
177–216) on the chain anchored at `dsapChain`, appending the node at
`locOff`: read `dsap_tail_prev = chain->dsap_prev`, exchange
`tail_prev->flag` to `VL_APPEND` capturing the prior value; on `VL_DELETE`
the iteration ends in `retry` (spin on `chain->dsap_prev`, then `goto
retry`); on `VL_WINNER` the four link stores of lines 203–206 run, then the
flag is exchanged back to `VL_WINNER`, and `VChainFixUpOne(tail_prev)` runs
exactly when that second exchange captured `VL_DELETE`; any other captured
value falls into the `assert(flag == VL_WINNER)` failure branch.
`interf` is an optional concurrent store to `tail_prev->flag` by the cutter
between the two exchanges (the concurrent traffic the protocol arbitrates),
so the second exchange captures `interf`'s value when present and
`VL_APPEND` (left by the first exchange) otherwise. -/
def appendIteration (mem : Mem) (dsapChain locOff : Nat)
    (interf : Option VLocatorFlag) (epoch : Nat) :
    Mem × List CEvent × AppendOutcome :=
  let chain := mem dsapChain
  let dsap_tail_prev := chain.dsap_prev
  let flag := (mem dsap_tail_prev).flag
  let mem1 := setFlag mem dsap_tail_prev .VL_APPEND
  let ev1 : List CEvent := [.load dsapChain, .load dsap_tail_prev,
    .xchg dsap_tail_prev .VL_APPEND flag]
  if flag = .VL_DELETE then
    (mem1, ev1, .retry)
  else if flag = .VL_WINNER then
    let mem2 := setField mem1 locOff .fprev dsap_tail_prev
    let mem3 := setField mem2 locOff .fnext (mem2 dsapChain).dsap
    let mem4 := setField mem3 dsap_tail_prev .fnext (mem3 locOff).dsap
    let mem5 := setField mem4 dsapChain .fprev (mem4 locOff).dsap
    let mem6 := match interf with
      | none => mem5
      | some f => setFlag mem5 dsap_tail_prev f
    let flag2 := (mem6 dsap_tail_prev).flag
    let mem7 := setFlag mem6 dsap_tail_prev .VL_WINNER
    let ev2 : List CEvent := ev1 ++
      [.store locOff .fprev dsap_tail_prev,
       .store locOff .fnext (mem2 dsapChain).dsap,
       .store dsap_tail_prev .fnext (mem3 locOff).dsap,
       .store dsapChain .fprev (mem4 locOff).dsap,
       .xchg dsap_tail_prev .VL_WINNER flag2]
    if flag2 = .VL_DELETE then
      let fix := VChainFixUpOne mem7 dsap_tail_prev epoch
      (fix.1, ev2 ++ fix.2, .doneWithFixup)
    else
      (mem7, ev2, .doneNoFixup)
  else
    (mem1, ev1, .assertFailure)

/-- Modelled from the spec: `VChainHashInsert` (KeyIndex `insertIfAbsent`) —
`vchain_hash.c` is not part of the given source; spec §6 specifies the
exclusive-mode insert as "idempotent under races", i.e. a get-or-create that
re-checks for the key before inserting and returns the already-present
anchor when another writer created it first. -/
def VChainHashInsert (idx : Nat → Option Nat) (key freshOff : Nat) :
    (Nat → Option Nat) × Nat :=
  match idx key with
  | some off => (idx, off)
  | none => (fun k => if k = key then some freshOff else idx k, freshOff)

/-- The anchor-resolution step of `VChainAppendLocator` (lines 149–169):
shared-mode KeyIndex lookup; on a hit, release the partition lock and use
the found anchor; on a miss, release, re-acquire in exclusive mode and
insert.  To expose the race the claim is about, the lookup under the shared
lock reads the index state `idx0`, while the exclusive-mode insert runs
against the possibly newer state `idx1` — another writer may have inserted
the key in between. -/
def appendResolveAnchor (idx0 idx1 : Nat → Option Nat) (key freshOff : Nat) :
    (Nat → Option Nat) × Nat :=
  match idx0 key with
  | some off => (idx1, off)
  | none => VChainHashInsert idx1 key freshOff

/-- Recognizer for link-field store events. -/
def isStoreEv : CEvent → Bool
  | .store _ _ _ => true
  | _ => false

/-- Recognizer for deletion-timestamp stamp events. -/
def isStampEv : CEvent → Bool
  | .stamp _ _ => true
  | _ => false

/-- A memory whose locator 0 carries `flag = VL_APPEND`: the state of
`tailPrev` while some other appender holds the append mark (and the state a
loser iteration leaves behind, cf. C10). -/
def memTailPrevAppendMarked : Mem := fun o => ⟨o, 0, 0, 0, .VL_APPEND, none⟩

/-! ## Concurrent appenders: a two-thread small-step model (C8) -/

/-- Program counter of an appender thread executing the consensus protocol
of `VChainAppendLocator` (lines 177–216), one shared-memory access per
step: read `dsap_tail_prev` (line 183), first exchange (187), the spin on
`chain->dsap_prev` (191), the four link stores (203–206), the second
exchange (209), the conditional fixup (213). -/
inductive APc where
  | readTP
  | xchg1
  | spin
  | link1
  | link2
  | link3
  | link4
  | xchg2
  | fixup
  | done
  | assertFailed
deriving DecidableEq, Repr

/-- Local state of an appender thread: program counter, the saved
`dsap_tail_prev`, and the offset of the node it is appending. -/
structure AThread where
  pc : APc
  tp : Nat
  locOff : Nat
deriving DecidableEq, Repr

/-- One step of an appender thread of `VChainAppendLocator` against the
shared arena. -/
def stepAppender (mem : Mem) (dsapChain epoch : Nat) (t : AThread) :
    Mem × AThread :=
  match t.pc with
  | .readTP => (mem, { t with tp := (mem dsapChain).dsap_prev, pc := .xchg1 })
  | .xchg1 =>
    (setFlag mem t.tp .VL_APPEND,
     { t with pc := if (mem t.tp).flag = .VL_DELETE then .spin
                    else if (mem t.tp).flag = .VL_WINNER then .link1
                    else .assertFailed })
  | .spin =>
    (mem, { t with pc := if (mem dsapChain).dsap_prev = t.tp then .spin else .readTP })
  | .link1 => (setField mem t.locOff .fprev t.tp, { t with pc := .link2 })
  | .link2 => (setField mem t.locOff .fnext (mem dsapChain).dsap, { t with pc := .link3 })
  | .link3 => (setField mem t.tp .fnext (mem t.locOff).dsap, { t with pc := .link4 })
  | .link4 => (setField mem dsapChain .fprev (mem t.locOff).dsap, { t with pc := .xchg2 })
  | .xchg2 =>
    (setFlag mem t.tp .VL_WINNER,
     { t with pc := if (mem t.tp).flag = .VL_DELETE then .fixup else .done })
  | .fixup => ((VChainFixUpOne mem t.tp epoch).1, { t with pc := .done })
  | .done => (mem, t)
  | .assertFailed => (mem, t)

/-- Two appender threads over the shared arena. -/
structure Sys2 where
  mem : Mem
  t1 : AThread
  t2 : AThread

/-- Scheduler step: `true` steps thread 1, `false` steps thread 2. -/
def stepSys (dsapChain epoch : Nat) (s : Sys2) (who : Bool) : Sys2 :=
  if who then
    { s with mem := (stepAppender s.mem dsapChain epoch s.t1).1,
             t1 := (stepAppender s.mem dsapChain epoch s.t1).2 }
  else
    { s with mem := (stepAppender s.mem dsapChain epoch s.t2).1,
             t2 := (stepAppender s.mem dsapChain epoch s.t2).2 }

/-- Run a schedule from a start state. -/
def runSys (dsapChain epoch : Nat) : List Bool → Sys2 → Sys2
  | [], s => s
  | w :: ws, s => runSys dsapChain epoch ws (stepSys dsapChain epoch s w)

/-- Offsets reached by walking `prev` from `cur` until the anchor offset is
reached (budgeted). -/
def backList (mem : Mem) (anchorOff : Nat) : Nat → Nat → List Nat
  | _, 0 => []
  | cur, fuel + 1 =>
    if cur = anchorOff then []
    else cur :: backList mem anchorOff (mem cur).dsap_prev fuel

/-- An empty chain anchored at offset `0` together with fresh, fully
populated but unlinked version nodes at every other offset (self offset set,
links unset, flag idle). -/
def chainInit : Mem := fun o =>
  if o = 0 then ⟨0, 0, 0, 0, .VL_WINNER, none⟩
  else ⟨o, 0, 0, o, .VL_WINNER, none⟩

/-- The interleaving refuting C8: thread 2 reads `dsap_tail_prev`, thread 1
then runs its complete append, and thread 2 resumes with its stale
`tail_prev`. -/
def lostAppendSchedule : List Bool :=
  [false, true, true, true, true, true, true, true,
   false, false, false, false, false, false]

/-! ## Serial appends build the full chain (amended C8) -/

/-- The memory effect of one uncontended `Append` consensus iteration (no
concurrent cutter write): the winner path of the protocol. -/
def appendSeq (mem : Mem) (dsapChain locOff : Nat) : Mem :=
  (appendIteration mem dsapChain locOff none 0).1

/-- `chainSeg mem succ l term`: walking `prev` from `succ` passes exactly
through `l` (newest first) and then reaches `term`, with every traversed
`prev`/`next` pair mutual. -/
def chainSeg (mem : Mem) : Nat → List Nat → Nat → Prop
  | succ, [], term => (mem succ).dsap_prev = term ∧ (mem term).dsap_next = succ
  | succ, x :: xs, term =>
      (mem succ).dsap_prev = x ∧ (mem x).dsap_next = succ ∧ chainSeg mem x xs term

/-- Invariant carried across serial appends: the chain below the anchor `a`
is exactly `r` (newest first) with mutual links, and the anchor and every
chain node have correct self offsets and idle flags. -/
def chainInv (mem : Mem) (a : Nat) (r : List Nat) : Prop :=
  chainSeg mem a r a
  ∧ (mem a).dsap = a ∧ (mem a).flag = .VL_WINNER
  ∧ (∀ n ∈ r, (mem n).dsap = n ∧ (mem n).flag = .VL_WINNER)

/-- Iterated uncontended appends, one per offset in the list. -/
def appendAll (a : Nat) : List Nat → Mem → Mem
  | [], mem => mem
  | o :: os, mem => appendAll a os (appendSeq mem a o)

/-! ## Lemmas and theorems -/

lemma lookupWalk_mkChainMem (N : Nat) (inSnap : Nat → Bool) :
    ∀ j ≤ N, ∀ fuel, j < fuel →
      (lookupWalk (mkChainMem N) 0 inSnap j fuel).2 =
        (match firstVisible inSnap j with
         | some i => LookupResult.found i
         | none => LookupResult.notFound) := by
  intro j
  induction j with
  | zero =>
    intro _ fuel hfuel
    match fuel, hfuel with
    | fuel + 1, _ =>
      simp [lookupWalk, mkChainMem, firstVisible]
  | succ j ih =>
    intro hj fuel hfuel
    match fuel, hfuel with
    | fuel + 1, hfuel =>
      have hcur : mkChainMem N (j + 1) =
          ⟨j + 1, j + 1 - 1, if j + 1 = N then 0 else j + 1 + 1, j + 1, .VL_WINNER, none⟩ := by
        simp only [mkChainMem]
        rw [if_neg (Nat.succ_ne_zero j), if_pos hj]
      by_cases hvis : inSnap (j + 1)
      · have := ih (Nat.le_of_succ_le hj) fuel (Nat.lt_of_succ_lt_succ hfuel)
        simp [lookupWalk, hcur, hvis, firstVisible, this]
      · simp [lookupWalk, hcur, hvis, firstVisible]

/-- Claim C1: `Lookup(key, snapshot)` walks the chain backward from the tail
via `prev` and returns the first node visible under the snapshot:
(i) when the KeyIndex has no anchor for the key, the result is `notFound`;
(ii) when the chain is empty (`anchor.prev == anchor.self`), the result is
`notFound` for every snapshot;
(iii) on the `N`-version chain, the result is exactly determined by the
first (newest) visible index of the backward walk, for every snapshot; and
(iv) for a snapshot that excludes exactly the newest `k` versions
(`inSnap x` iff `N - k < x`), the result is version `N - k` when `k < N`,
and `notFound` when `k = N`. -/
theorem C1_lookup_backward_first_visible (N k key fuel : Nat)
    (hk : k ≤ N) (hfuel : N < fuel) :
    (∀ keyIndex mem inSnap, keyIndex key = none →
      (VChainLookupLocator keyIndex mem inSnap key fuel).2 = .notFound)
    ∧ (∀ keyIndex mem inSnap (dsapChain : Nat), keyIndex key = some dsapChain →
        (mem dsapChain).dsap_prev = (mem dsapChain).dsap →
        (VChainLookupLocator keyIndex mem inSnap key fuel).2 = .notFound)
    ∧ (∀ inSnap, 0 < N →
        (VChainLookupLocator (fun _ => some 0) (mkChainMem N) inSnap key fuel).2 =
          (match firstVisible inSnap N with
           | some i => LookupResult.found i
           | none => LookupResult.notFound))
    ∧ ((VChainLookupLocator (fun _ => some 0) (mkChainMem N)
          (fun x => decide (N - k < x)) key fuel).2 =
        if k < N then .found (N - k) else .notFound) := by
  have hanchor : mkChainMem N 0 = ⟨0, N, if N = 0 then 0 else 1, 0, .VL_WINNER, none⟩ := by
    simp [mkChainMem]
  refine ⟨?_, ?_, ?_, ?_⟩
  · intro keyIndex mem inSnap hmiss
    simp [VChainLookupLocator, hmiss]
  · intro keyIndex mem inSnap dsapChain hhit hempty
    simp [VChainLookupLocator, hhit, hempty]
  · intro inSnap hN
    have hwalk := lookupWalk_mkChainMem N inSnap N le_rfl fuel hfuel
    have hne : N ≠ 0 := Nat.pos_iff_ne_zero.mp hN
    have hred : (VChainLookupLocator (fun _ => some 0) (mkChainMem N) inSnap key fuel).2 =
        (lookupWalk (mkChainMem N) 0 inSnap N fuel).2 := by
      simp [VChainLookupLocator, hanchor, hne]
    rw [hred, hwalk]
  · by_cases hN : N = 0
    · subst hN
      have hk0 : k = 0 := Nat.le_zero.mp hk
      subst hk0
      simp [VChainLookupLocator, mkChainMem]
    · have hwalk := lookupWalk_mkChainMem N (fun x => decide (N - k < x)) N le_rfl fuel hfuel
      have hfvgen : ∀ j, N - k ≤ j →
          firstVisible (fun x => decide (N - k < x)) j =
            (if 0 < N - k then some (N - k) else none) := by
        intro j
        induction j with
        | zero =>
          intro h1
          have h0 : N - k = 0 := Nat.le_zero.mp h1
          simp [firstVisible, h0]
        | succ j ih =>
          intro h1
          by_cases hcase : N - k = j + 1
          · have hnotvis : ¬ (N - k < j + 1) := by omega
            have hpos : 0 < N - k := by omega
            simp [firstVisible, hnotvis, hpos, hcase]
          · have hle : N - k ≤ j := by omega
            have hvis : N - k < j + 1 := by omega
            simp [firstVisible, hvis, ih hle]
      have hfv : firstVisible (fun x => decide (N - k < x)) N =
          (if k < N then some (N - k) else none) := by
        rw [hfvgen N (Nat.sub_le N k)]
        by_cases hkN : k < N
        · have hpos : 0 < N - k := by omega
          simp [hkN, hpos]
        · have hneg : ¬ 0 < N - k := by omega
          simp [hkN, hneg]
      have hred : (VChainLookupLocator (fun _ => some 0) (mkChainMem N)
          (fun x => decide (N - k < x)) key fuel).2 =
          (lookupWalk (mkChainMem N) 0 (fun x => decide (N - k < x)) N fuel).2 := by
        simp [VChainLookupLocator, hanchor, hN]
      rw [hred, hwalk, hfv]
      by_cases hkN : k < N <;> simp [hkN]

/-! ## Store helper lemmas -/

@[simp] lemma setField_dsap (mem : Mem) (off : Nat) (f : Field) (v o : Nat) :
    ((setField mem off f v) o).dsap = (mem o).dsap := by
  by_cases h : o = off
  · subst h; cases f <;> simp [setField]
  · simp [setField, h]

@[simp] lemma setField_xmin (mem : Mem) (off : Nat) (f : Field) (v o : Nat) :
    ((setField mem off f v) o).xmin = (mem o).xmin := by
  by_cases h : o = off
  · subst h; cases f <;> simp [setField]
  · simp [setField, h]

@[simp] lemma setField_flag (mem : Mem) (off : Nat) (f : Field) (v o : Nat) :
    ((setField mem off f v) o).flag = (mem o).flag := by
  by_cases h : o = off
  · subst h; cases f <;> simp [setField]
  · simp [setField, h]

@[simp] lemma setField_timestamp (mem : Mem) (off : Nat) (f : Field) (v o : Nat) :
    ((setField mem off f v) o).timestamp = (mem o).timestamp := by
  by_cases h : o = off
  · subst h; cases f <;> simp [setField]
  · simp [setField, h]

lemma setField_of_ne (mem : Mem) (off : Nat) (f : Field) (v o : Nat) (h : o ≠ off) :
    (setField mem off f v) o = mem o := by
  simp [setField, h]

@[simp] lemma setField_fprev_prev (mem : Mem) (off v : Nat) :
    ((setField mem off .fprev v) off).dsap_prev = v := by
  simp [setField]

@[simp] lemma setField_fprev_next (mem : Mem) (off v : Nat) :
    ((setField mem off .fprev v) off).dsap_next = (mem off).dsap_next := by
  simp [setField]

@[simp] lemma setField_fnext_next (mem : Mem) (off v : Nat) :
    ((setField mem off .fnext v) off).dsap_next = v := by
  simp [setField]

@[simp] lemma setField_fnext_prev (mem : Mem) (off v : Nat) :
    ((setField mem off .fnext v) off).dsap_prev = (mem off).dsap_prev := by
  simp [setField]

lemma setFlag_of_ne (mem : Mem) (off : Nat) (fl : VLocatorFlag) (o : Nat) (h : o ≠ off) :
    (setFlag mem off fl) o = mem o := by
  simp [setFlag, h]

@[simp] lemma setFlag_dsap (mem : Mem) (off : Nat) (fl : VLocatorFlag) (o : Nat) :
    ((setFlag mem off fl) o).dsap = (mem o).dsap := by
  by_cases h : o = off
  · subst h; simp [setFlag]
  · simp [setFlag, h]

@[simp] lemma setFlag_prev (mem : Mem) (off : Nat) (fl : VLocatorFlag) (o : Nat) :
    ((setFlag mem off fl) o).dsap_prev = (mem o).dsap_prev := by
  by_cases h : o = off
  · subst h; simp [setFlag]
  · simp [setFlag, h]

@[simp] lemma setFlag_next (mem : Mem) (off : Nat) (fl : VLocatorFlag) (o : Nat) :
    ((setFlag mem off fl) o).dsap_next = (mem o).dsap_next := by
  by_cases h : o = off
  · subst h; simp [setFlag]
  · simp [setFlag, h]

@[simp] lemma setFlag_xmin (mem : Mem) (off : Nat) (fl : VLocatorFlag) (o : Nat) :
    ((setFlag mem off fl) o).xmin = (mem o).xmin := by
  by_cases h : o = off
  · subst h; simp [setFlag]
  · simp [setFlag, h]

@[simp] lemma setFlag_flag_at (mem : Mem) (off : Nat) (fl : VLocatorFlag) :
    ((setFlag mem off fl) off).flag = fl := by
  simp [setFlag]

lemma setStamp_of_ne (mem : Mem) (off ts o : Nat) (h : o ≠ off) :
    (setStamp mem off ts) o = mem o := by
  simp [setStamp, h]

@[simp] lemma setStamp_dsap (mem : Mem) (off ts o : Nat) :
    ((setStamp mem off ts) o).dsap = (mem o).dsap := by
  by_cases h : o = off
  · subst h; simp [setStamp]
  · simp [setStamp, h]

@[simp] lemma setStamp_prev (mem : Mem) (off ts o : Nat) :
    ((setStamp mem off ts) o).dsap_prev = (mem o).dsap_prev := by
  by_cases h : o = off
  · subst h; simp [setStamp]
  · simp [setStamp, h]

@[simp] lemma setStamp_next (mem : Mem) (off ts o : Nat) :
    ((setStamp mem off ts) o).dsap_next = (mem o).dsap_next := by
  by_cases h : o = off
  · subst h; simp [setStamp]
  · simp [setStamp, h]

@[simp] lemma setStamp_xmin (mem : Mem) (off ts o : Nat) :
    ((setStamp mem off ts) o).xmin = (mem o).xmin := by
  by_cases h : o = off
  · subst h; simp [setStamp]
  · simp [setStamp, h]

@[simp] lemma setStamp_flag (mem : Mem) (off ts o : Nat) :
    ((setStamp mem off ts) o).flag = (mem o).flag := by
  by_cases h : o = off
  · subst h; simp [setStamp]
  · simp [setStamp, h]

@[simp] lemma setStamp_timestamp_at (mem : Mem) (off ts : Nat) :
    ((setStamp mem off ts) off).timestamp = some ts := by
  simp [setStamp]

@[simp] lemma setField_fprev_next_all (mem : Mem) (off v o : Nat) :
    ((setField mem off .fprev v) o).dsap_next = (mem o).dsap_next := by
  by_cases h : o = off
  · subst h; simp [setField]
  · simp [setField, h]

@[simp] lemma setField_fnext_prev_all (mem : Mem) (off v o : Nat) :
    ((setField mem off .fnext v) o).dsap_prev = (mem o).dsap_prev := by
  by_cases h : o = off
  · subst h; simp [setField]
  · simp [setField, h]

@[simp] lemma setFlag_timestamp (mem : Mem) (off : Nat) (fl : VLocatorFlag) (o : Nat) :
    ((setFlag mem off fl) o).timestamp = (mem o).timestamp := by
  by_cases h : o = off
  · subst h; simp [setFlag]
  · simp [setFlag, h]

/-- Claim C5: `Fixup(node)` first performs both unlink stores
(`prev.next = node.next` and `next.prev = node.prev`), then the memory
fence, and only after the fence stamps `node.deletionEpoch` with the current
epoch; it performs no other writes (its whole semantic effect is the two
unlink fields and the stamp), never touches the KeyIndex, and frees no
memory. -/
theorem C5_fixup_unlink_fence_stamp_order (mem : Mem) (midOff epoch : Nat) :
    (∃ pre post,
      (VChainFixUpOne mem midOff epoch).2 = pre ++ CEvent.fence :: post ∧
      pre.filter isStoreEv =
        [.store (mem midOff).dsap_prev .fnext (mem midOff).dsap_next,
         .store (mem midOff).dsap_next .fprev (mem midOff).dsap_prev] ∧
      (∀ e ∈ pre, isStampEv e = false) ∧
      post = [CEvent.stamp midOff epoch])
    ∧ (∀ e ∈ (VChainFixUpOne mem midOff epoch).2,
        e ≠ .keyIndexOp ∧ (∀ o, e ≠ .free o) ∧ (∀ o a b, e ≠ .xchg o a b))
    ∧ ((VChainFixUpOne mem midOff epoch).1 midOff).timestamp = some epoch
    ∧ ((VChainFixUpOne mem midOff epoch).1 (mem midOff).dsap_prev).dsap_next
        = (mem midOff).dsap_next
    ∧ ((VChainFixUpOne mem midOff epoch).1 (mem midOff).dsap_next).dsap_prev
        = (mem midOff).dsap_prev
    ∧ (∀ o, o ≠ (mem midOff).dsap_prev → o ≠ (mem midOff).dsap_next → o ≠ midOff →
        (VChainFixUpOne mem midOff epoch).1 o = mem o)
    ∧ (∀ o, ((VChainFixUpOne mem midOff epoch).1 o).flag = (mem o).flag
        ∧ ((VChainFixUpOne mem midOff epoch).1 o).dsap = (mem o).dsap
        ∧ ((VChainFixUpOne mem midOff epoch).1 o).xmin = (mem o).xmin) := by
  refine ⟨?_, ?_, ?_, ?_, ?_, ?_, ?_⟩
  · refine ⟨[.load (mem midOff).dsap_prev, .load (mem midOff).dsap_next,
      .store (mem midOff).dsap_prev .fnext (mem midOff).dsap_next,
      .store (mem midOff).dsap_next .fprev (mem midOff).dsap_prev],
      [CEvent.stamp midOff epoch], ?_, ?_, ?_, rfl⟩
    · simp [VChainFixUpOne]
    · simp [isStoreEv]
    · intro e he
      simp only [List.mem_cons, List.not_mem_nil, or_false] at he
      rcases he with h | h | h | h <;> subst h <;> rfl
  · intro e he
    simp only [VChainFixUpOne, List.mem_cons, List.not_mem_nil, or_false] at he
    rcases he with h | h | h | h | h | h <;> subst h <;>
      exact ⟨by simp, fun o => by simp, fun o a b => by simp⟩
  · simp [VChainFixUpOne]
  · simp [VChainFixUpOne]
  · simp [VChainFixUpOne]
  · intro o h1 h2 h3
    simp only [VChainFixUpOne]
    rw [setStamp_of_ne _ _ _ _ h3, setField_of_ne _ _ _ _ _ h2, setField_of_ne _ _ _ _ _ h1]
  · intro o
    refine ⟨by simp [VChainFixUpOne], by simp [VChainFixUpOne], by simp [VChainFixUpOne]⟩

/-- Claim C5, witness: the structure above evaluated on a concrete three-node
memory; the frame component is exercised at offset 42. -/
theorem C5_fixup_witness :
    ((VChainFixUpOne (mkChainMem 3) 2 11).1 1).dsap_next = 3
    ∧ ((VChainFixUpOne (mkChainMem 3) 2 11).1 3).dsap_prev = 1
    ∧ ((VChainFixUpOne (mkChainMem 3) 2 11).1 2).timestamp = some 11
    ∧ (VChainFixUpOne (mkChainMem 3) 2 11).1 42 = mkChainMem 3 42 := by
  have h := C5_fixup_unlink_fence_stamp_order (mkChainMem 3) 2 11
  refine ⟨?_, ?_, h.2.2.1, ?_⟩
  · have := h.2.2.2.1
    simpa [mkChainMem] using this
  · have := h.2.2.2.2.1
    simpa [mkChainMem] using this
  · exact h.2.2.2.2.2.1 42 (by simp [mkChainMem]) (by simp [mkChainMem]) (by simp)

/-- Claim C4: After linking, `Append` exchanges `tailPrev.syncFlag` back to
the Idle/winner value, capturing the value observed during the marked
window, and invokes `Fixup(tailPrev)` exactly when that captured value is
`VL_DELETE`; otherwise it returns without calling `Fixup`.  The captured
value is `VL_DELETE` exactly when the cutter wrote `VL_DELETE` during the
window, the winner path always ends in one of the two done outcomes, the
flag ends up at the Idle/winner value, and the `Fixup` run (whose signature
event is the deletion stamp of `tailPrev`) happens in the `doneWithFixup`
case only. -/
theorem C4_restore_exchange_decides_fixup (mem : Mem) (dsapChain locOff : Nat)
    (interf : Option VLocatorFlag) (epoch : Nat)
    (hwin : (mem (mem dsapChain).dsap_prev).flag = .VL_WINNER) :
    (∃ cap,
      CEvent.xchg (mem dsapChain).dsap_prev .VL_WINNER cap ∈
        (appendIteration mem dsapChain locOff interf epoch).2.1 ∧
      ((appendIteration mem dsapChain locOff interf epoch).2.2 = .doneWithFixup
        ↔ cap = .VL_DELETE) ∧
      (cap = .VL_DELETE ↔ interf = some .VL_DELETE))
    ∧ ((appendIteration mem dsapChain locOff interf epoch).2.2 = .doneWithFixup
        ∨ (appendIteration mem dsapChain locOff interf epoch).2.2 = .doneNoFixup)
    ∧ (((appendIteration mem dsapChain locOff interf epoch).1
        (mem dsapChain).dsap_prev).flag = .VL_WINNER)
    ∧ ((appendIteration mem dsapChain locOff interf epoch).2.2 = .doneWithFixup →
        CEvent.stamp (mem dsapChain).dsap_prev epoch ∈
          (appendIteration mem dsapChain locOff interf epoch).2.1)
    ∧ ((appendIteration mem dsapChain locOff interf epoch).2.2 = .doneNoFixup →
        ∀ o e, CEvent.stamp o e ∉
          (appendIteration mem dsapChain locOff interf epoch).2.1) := by
  rcases interf with _ | f
  · refine ⟨⟨.VL_APPEND, ?_, ?_, ?_⟩, ?_, ?_, ?_, ?_⟩ <;>
      simp [appendIteration, hwin, VChainFixUpOne]
  · rcases f with _ | _ | _
    · refine ⟨⟨.VL_WINNER, ?_, ?_, ?_⟩, ?_, ?_, ?_, ?_⟩ <;>
        simp [appendIteration, hwin, VChainFixUpOne]
    · refine ⟨⟨.VL_APPEND, ?_, ?_, ?_⟩, ?_, ?_, ?_, ?_⟩ <;>
        simp [appendIteration, hwin, VChainFixUpOne]
    · refine ⟨⟨.VL_DELETE, ?_, ?_, ?_⟩, ?_, ?_, ?_, ?_⟩ <;>
        simp [appendIteration, hwin, VChainFixUpOne]

/-- Claim C4, witness: on the 1-version chain with a cutter writing
`VL_DELETE` during the marked window, `Fixup` runs; without it, it does
not. -/
theorem C4_restore_exchange_witness :
    (appendIteration (mkChainMem 1) 0 2 (some .VL_DELETE) 7).2.2 = .doneWithFixup
    ∧ (appendIteration (mkChainMem 1) 0 2 none 7).2.2 ≠ .doneWithFixup := by
  constructor
  · have h := C4_restore_exchange_decides_fixup (mkChainMem 1) 0 2 (some .VL_DELETE) 7
      (by decide)
    rcases h.1 with ⟨cap, _, hiff, hcap⟩
    exact hiff.mpr (hcap.mpr rfl)
  · have h := C4_restore_exchange_decides_fixup (mkChainMem 1) 0 2 none 7 (by decide)
    rcases h.1 with ⟨cap, _, hiff, hcap⟩
    intro hcontra
    exact Option.noConfusion (hcap.mp (hiff.mp hcontra))

/-- Claim C3: On the winner path of `Append`, exactly four link stores are
performed, in this order: `newNode.prev = tailPrev`, `newNode.next =
anchor.self`, `tailPrev.next = newNode.self`, and `anchor.prev =
newNode.self` last; no link store precedes them and, unless `Fixup` runs on
the remover's behalf afterwards, none follows, so the `anchor.prev` store
is the append's final link write (its linearization point).  When no
`Fixup` runs, the final memory shows the fully mutual links of the new
node. -/
theorem C3_link_store_order (mem : Mem) (dsapChain locOff : Nat)
    (interf : Option VLocatorFlag) (epoch : Nat)
    (hwin : (mem (mem dsapChain).dsap_prev).flag = .VL_WINNER) :
    (∃ pre mid,
      (appendIteration mem dsapChain locOff interf epoch).2.1 =
        pre ++ [CEvent.store locOff .fprev (mem dsapChain).dsap_prev,
                CEvent.store locOff .fnext (mem dsapChain).dsap,
                CEvent.store (mem dsapChain).dsap_prev .fnext (mem locOff).dsap,
                CEvent.store dsapChain .fprev (mem locOff).dsap] ++ mid ∧
      pre.filter isStoreEv = [] ∧
      ((appendIteration mem dsapChain locOff interf epoch).2.2 = .doneNoFixup →
        mid.filter isStoreEv = []))
    ∧ ((appendIteration mem dsapChain locOff interf epoch).2.2 = .doneNoFixup →
        locOff ≠ (mem dsapChain).dsap_prev → locOff ≠ dsapChain →
        ((appendIteration mem dsapChain locOff interf epoch).1 locOff).dsap_prev
            = (mem dsapChain).dsap_prev
        ∧ ((appendIteration mem dsapChain locOff interf epoch).1 locOff).dsap_next
            = (mem dsapChain).dsap
        ∧ ((appendIteration mem dsapChain locOff interf epoch).1
            (mem dsapChain).dsap_prev).dsap_next = (mem locOff).dsap
        ∧ ((appendIteration mem dsapChain locOff interf epoch).1 dsapChain).dsap_prev
            = (mem locOff).dsap) := by
  constructor
  · refine ⟨[.load dsapChain, .load (mem dsapChain).dsap_prev,
        .xchg (mem dsapChain).dsap_prev .VL_APPEND .VL_WINNER],
      ((appendIteration mem dsapChain locOff interf epoch).2.1).drop 7, ?_, ?_, ?_⟩
    · rcases interf with _ | f
      · simp [appendIteration, hwin]
      · rcases f with _ | _ | _ <;> simp [appendIteration, hwin, VChainFixUpOne]
    · simp [isStoreEv]
    · intro hdone
      rcases interf with _ | f
      · simp [appendIteration, hwin, isStoreEv]
      · rcases f with _ | _ | _
        · simp [appendIteration, hwin, isStoreEv]
        · simp [appendIteration, hwin, isStoreEv]
        · simp [appendIteration, hwin] at hdone
  · intro hdone hne1 hne2
    rcases interf with _ | f
    · refine ⟨?_, ?_, ?_, ?_⟩ <;>
        simp [appendIteration, hwin, setField_of_ne, setFlag_of_ne, hne1, hne2]
    · rcases f with _ | _ | _
      · refine ⟨?_, ?_, ?_, ?_⟩ <;>
          simp [appendIteration, hwin, setField_of_ne, setFlag_of_ne, hne1, hne2]
      · refine ⟨?_, ?_, ?_, ?_⟩ <;>
          simp [appendIteration, hwin, setField_of_ne, setFlag_of_ne, hne1, hne2]
      · simp [appendIteration, hwin, VChainFixUpOne] at hdone

/-- Claim C3, witness: the mutual links after an uncontended append of node 2
onto the 1-version chain, obtained from the order theorem. -/
theorem C3_link_store_witness :
    ((appendIteration (mkChainMem 1) 0 2 none 7).1 2).dsap_prev = 1
    ∧ ((appendIteration (mkChainMem 1) 0 2 none 7).1 2).dsap_next = 0
    ∧ ((appendIteration (mkChainMem 1) 0 2 none 7).1 1).dsap_next = 2
    ∧ ((appendIteration (mkChainMem 1) 0 2 none 7).1 0).dsap_prev = 2 := by
  have h := C3_link_store_order (mkChainMem 1) 0 2 none 7 (by decide)
  have h2 := h.2 (by decide) (by decide) (by decide)
  refine ⟨?_, ?_, ?_, ?_⟩
  · simpa [mkChainMem] using h2.1
  · simpa [mkChainMem] using h2.2.1
  · simpa [mkChainMem] using h2.2.2.1
  · simpa [mkChainMem] using h2.2.2.2

/-- Claim C2, counterexample: `VL_APPEND` lies within the defined tri-state,
yet when the exchange on `tailPrev.syncFlag` captures it, the iteration
falls into the assertion-failure branch — so tri-state membership alone
does not make that branch unreachable, contrary to the claim. -/
theorem C2_counterexample_append_marked :
    VLocatorFlag.VL_APPEND ∈
      [VLocatorFlag.VL_WINNER, VLocatorFlag.VL_APPEND, VLocatorFlag.VL_DELETE]
    ∧ (memTailPrevAppendMarked
        (memTailPrevAppendMarked 0).dsap_prev).flag = .VL_APPEND
    ∧ (appendIteration memTailPrevAppendMarked 0 1 none 0).2.2 = .assertFailure := by
  refine ⟨by decide, rfl, rfl⟩

/-- Claim C2, amended: The branch taken by the consensus exchange is decided
by the captured flag: `VL_DELETE` makes the iteration a loser — it ends in
`retry` (spin on `anchor.prev`, then restart from reading `anchor.prev`)
with no link store performed in that iteration; `VL_WINNER` takes the
winner path, on which the `flag == VL_WINNER` assertion holds; and the
assertion-failure branch is reachable exactly when the captured value is
`VL_APPEND` — tri-state membership alone does not exclude it. -/
theorem C2_consensus_branches (mem : Mem) (dsapChain locOff : Nat)
    (interf : Option VLocatorFlag) (epoch : Nat) :
    ((mem (mem dsapChain).dsap_prev).flag = .VL_DELETE →
      (appendIteration mem dsapChain locOff interf epoch).2.2 = .retry ∧
      ((appendIteration mem dsapChain locOff interf epoch).2.1).filter isStoreEv = [])
    ∧ ((mem (mem dsapChain).dsap_prev).flag = .VL_WINNER →
      (appendIteration mem dsapChain locOff interf epoch).2.2 ≠ .assertFailure)
    ∧ ((appendIteration mem dsapChain locOff interf epoch).2.2 = .assertFailure ↔
      (mem (mem dsapChain).dsap_prev).flag = .VL_APPEND) := by
  refine ⟨?_, ?_, ?_⟩
  · intro h
    constructor
    · simp [appendIteration, h]
    · simp [appendIteration, h, isStoreEv]
  · intro h
    rcases interf with _ | f
    · simp [appendIteration, h]
    · rcases f with _ | _ | _ <;> simp [appendIteration, h]
  · rcases hf : (mem (mem dsapChain).dsap_prev).flag with _ | _ | _
    · rcases interf with _ | f
      · simp [appendIteration, hf]
      · rcases f with _ | _ | _ <;> simp [appendIteration, hf]
    · simp [appendIteration, hf]
    · simp [appendIteration, hf]

/-- Claim C2, witness: a loser iteration (captured `VL_DELETE`) on a concrete
memory ends in `retry` with no link store. -/
theorem C2_consensus_witness :
    (appendIteration (fun o => ⟨o, 0, 0, 0, .VL_DELETE, none⟩) 0 1 none 0).2.2
      = .retry := by
  have h := C2_consensus_branches (fun o => ⟨o, 0, 0, 0, .VL_DELETE, none⟩) 0 1 none 0
  exact (h.1 rfl).1

/-- Claim C10: When `Append` loses the consensus race (the exchange on
`tailPrev.syncFlag` captures `VL_DELETE`), the iteration ends in the
spin-and-retry outcome leaving `tailPrev.syncFlag` equal to `VL_APPEND`:
the whole iteration's trace is the two loads and the single exchange that
stored `VL_APPEND` — the remover's `VL_DELETE` is never restored, no further
flag write occurs, and nothing but `tailPrev`'s flag changes in memory. -/
theorem C10_loser_leaves_append_marked (mem : Mem) (dsapChain locOff : Nat)
    (interf : Option VLocatorFlag) (epoch : Nat)
    (hdel : (mem (mem dsapChain).dsap_prev).flag = .VL_DELETE) :
    (appendIteration mem dsapChain locOff interf epoch).2.2 = .retry
    ∧ (appendIteration mem dsapChain locOff interf epoch).2.1 =
        [.load dsapChain, .load (mem dsapChain).dsap_prev,
         .xchg (mem dsapChain).dsap_prev .VL_APPEND .VL_DELETE]
    ∧ ((appendIteration mem dsapChain locOff interf epoch).1
        (mem dsapChain).dsap_prev).flag = .VL_APPEND
    ∧ (∀ o, o ≠ (mem dsapChain).dsap_prev →
        (appendIteration mem dsapChain locOff interf epoch).1 o = mem o)
    ∧ ((appendIteration mem dsapChain locOff interf epoch).1 (mem dsapChain).dsap_prev
        = { mem (mem dsapChain).dsap_prev with flag := .VL_APPEND }) := by
  refine ⟨?_, ?_, ?_, ?_, ?_⟩
  · simp [appendIteration, hdel]
  · simp [appendIteration, hdel]
  · simp [appendIteration, hdel]
  · intro o ho
    simp [appendIteration, hdel, setFlag_of_ne _ _ _ _ ho]
  · simp [appendIteration, hdel, setFlag]

/-- Claim C10, witness: the loser iteration on a concrete memory leaves the
flag at `VL_APPEND` and everything else untouched. -/
theorem C10_loser_witness :
    ((appendIteration (fun o => ⟨o, 0, 0, 0, .VL_DELETE, none⟩) 0 1 none 0).1 0).flag
      = .VL_APPEND
    ∧ (appendIteration (fun o => ⟨o, 0, 0, 0, .VL_DELETE, none⟩) 0 1 none 0).1 5
      = ⟨5, 0, 0, 0, .VL_DELETE, none⟩ := by
  have h := C10_loser_leaves_append_marked
    (fun o => ⟨o, 0, 0, 0, .VL_DELETE, none⟩) 0 1 none 0 rfl
  exact ⟨h.2.2.1, h.2.2.2.1 5 (by decide)⟩

/-- Claim C6: When `Append`'s shared-mode KeyIndex lookup misses, it escalates
to exclusive mode and performs the get-or-create insert; the insert
re-checks for the key, so a racing writer that created the anchor between the
shared miss and the exclusive insert is tolerated and its anchor reused:
exactly one anchor ever exists per key.  `idx0` is the index as read under
the shared lock, `idx1` the index at the exclusive insert (`hmono`: anchors
are never removed, so the anchor sets only grow between the two reads). -/
theorem C6_anchor_get_or_create (idx0 idx1 : Nat → Option Nat) (key freshOff : Nat)
    (hmono : ∀ o, idx0 key = some o → idx1 key = some o) :
    (∀ o, idx1 key = some o →
        appendResolveAnchor idx0 idx1 key freshOff = (idx1, o))
    ∧ (idx1 key = none →
        (appendResolveAnchor idx0 idx1 key freshOff).2 = freshOff ∧
        (appendResolveAnchor idx0 idx1 key freshOff).1 key = some freshOff)
    ∧ ((appendResolveAnchor idx0 idx1 key freshOff).1 key =
        some (appendResolveAnchor idx0 idx1 key freshOff).2)
    ∧ (∀ freshOff2,
        appendResolveAnchor (appendResolveAnchor idx0 idx1 key freshOff).1
          (appendResolveAnchor idx0 idx1 key freshOff).1 key freshOff2 =
        ((appendResolveAnchor idx0 idx1 key freshOff).1,
         (appendResolveAnchor idx0 idx1 key freshOff).2))
    ∧ (∀ k, k ≠ key → (appendResolveAnchor idx0 idx1 key freshOff).1 k = idx1 k) := by
  have hone : (appendResolveAnchor idx0 idx1 key freshOff).1 key =
      some (appendResolveAnchor idx0 idx1 key freshOff).2 := by
    rcases h0 : idx0 key with _ | o0
    · rcases h1 : idx1 key with _ | o1
      · simp [appendResolveAnchor, VChainHashInsert, h0, h1]
      · simp [appendResolveAnchor, VChainHashInsert, h0, h1]
    · have h1 := hmono o0 h0
      simp [appendResolveAnchor, h0, h1]
  refine ⟨?_, ?_, hone, ?_, ?_⟩
  · intro o h1
    rcases h0 : idx0 key with _ | o0
    · simp [appendResolveAnchor, VChainHashInsert, h0, h1]
    · have := hmono o0 h0
      rw [this] at h1
      simp only [Option.some.injEq] at h1
      subst h1
      simp [appendResolveAnchor, h0]
  · intro h1
    rcases h0 : idx0 key with _ | o0
    · simp [appendResolveAnchor, VChainHashInsert, h0, h1]
    · exact absurd (hmono o0 h0) (by rw [h1]; exact fun h => Option.noConfusion h)
  · intro freshOff2
    rcases hsp : appendResolveAnchor idx0 idx1 key freshOff with ⟨idx2, o2⟩
    have h2 : idx2 key = some o2 := by
      have hh := hone
      rw [hsp] at hh
      simpa using hh
    simp [appendResolveAnchor, h2]
  · intro k hk
    rcases h0 : idx0 key with _ | o0
    · rcases h1 : idx1 key with _ | o1
      · simp [appendResolveAnchor, VChainHashInsert, h0, h1, hk]
      · simp [appendResolveAnchor, VChainHashInsert, h0, h1]
    · simp [appendResolveAnchor, h0]

/-- Claim C6, witness: a writer whose shared lookup missed but whose exclusive
insert finds the anchor created by a racing writer reuses that anchor and
leaves the index unchanged. -/
theorem C6_anchor_witness :
    appendResolveAnchor (fun _ => none)
      (fun k => if k = 5 then some 3 else none) 5 7
    = ((fun k => if k = 5 then some 3 else none), 3) :=
  (C6_anchor_get_or_create (fun _ => none) (fun k => if k = 5 then some 3 else none)
    5 7 (fun o h => Option.noConfusion h)).1 3 (by simp)

/-! ## Epoch bracketing of Lookup -/

lemma lookupWalk_trace_shape (mem : Mem) (a : Nat) (s : Nat → Bool) :
    ∀ fuel cur, (lookupWalk mem a s cur fuel).2 ≠ .outOfFuel →
      ∃ ds : List Nat,
        (lookupWalk mem a s cur fuel).1 = ds.map LEvent.deref ++ [.clearTimestamp] := by
  intro fuel
  induction fuel with
  | zero => intro cur h; simp [lookupWalk] at h
  | succ fuel ih =>
    intro cur h
    by_cases h1 : (mem cur).dsap = a
    · exact ⟨[], by simp [lookupWalk, h1]⟩
    · by_cases h2 : s (mem cur).xmin
      · have hrec : (lookupWalk mem a s (mem cur).dsap_prev fuel).2 ≠ .outOfFuel := by
          simp only [lookupWalk, h1, h2] at h
          simpa using h
        rcases ih (mem cur).dsap_prev hrec with ⟨ds, hds⟩
        exact ⟨(mem cur).dsap_prev :: ds, by simp [lookupWalk, h1, h2, hds]⟩
      · exact ⟨[], by simp [lookupWalk, h1, h2]⟩

/-- Whenever an anchor exists and the walk terminates, the trace of
`VChainLookupLocator` is: the shared-lock bracket, one `SetTimestamp`, a
run of chain dereferences, and a final `ClearTimestamp`. -/
lemma VChainLookupLocator_trace_shape (keyIndex : Nat → Option Nat) (mem : Mem)
    (inSnap : Nat → Bool) (key fuel dsapChain : Nat)
    (hhit : keyIndex key = some dsapChain)
    (hterm : (VChainLookupLocator keyIndex mem inSnap key fuel).2 ≠ .outOfFuel) :
    ∃ ds : List Nat,
      (VChainLookupLocator keyIndex mem inSnap key fuel).1 =
        [.acquireShared, .release, .setTimestamp] ++ ds.map LEvent.deref ++
          [.clearTimestamp] := by
  by_cases hempty : (mem dsapChain).dsap_prev = (mem dsapChain).dsap
  · exact ⟨[dsapChain], by simp [VChainLookupLocator, hhit, hempty]⟩
  · have hterm2 : (lookupWalk mem (mem dsapChain).dsap inSnap
        (mem dsapChain).dsap_prev fuel).2 ≠ .outOfFuel := by
      simpa [VChainLookupLocator, hhit, hempty] using hterm
    rcases lookupWalk_trace_shape mem (mem dsapChain).dsap inSnap fuel
      (mem dsapChain).dsap_prev hterm2 with ⟨ds, hds⟩
    refine ⟨dsapChain :: (mem dsapChain).dsap_prev :: ds, ?_⟩
    simp [VChainLookupLocator, hhit, hempty, hds]

lemma count_map_deref_setTimestamp (ds : List Nat) :
    (ds.map LEvent.deref).count LEvent.setTimestamp = 0 := by
  rw [List.count_eq_zero]
  simp

lemma count_map_deref_clearTimestamp (ds : List Nat) :
    (ds.map LEvent.deref).count LEvent.clearTimestamp = 0 := by
  rw [List.count_eq_zero]
  simp

/-- Claim C7: When an anchor exists for the key (the only case in which
`Lookup` touches the chain) and the walk terminates, `Lookup` publishes its
epoch before dereferencing any node reached through the chain — the trace
is exactly lock-bracket, `SetTimestamp`, dereferences, `ClearTimestamp`, so
every dereference comes after the publish — and on every such exit path
(success, empty-chain NotFound, no-visible-version NotFound) the trace ends
with `ClearTimestamp` and publishes and retractions balance: the epoch is
retracted before the call returns. -/
theorem C7_epoch_publish_retract (keyIndex : Nat → Option Nat) (mem : Mem)
    (inSnap : Nat → Bool) (key fuel dsapChain : Nat)
    (hhit : keyIndex key = some dsapChain)
    (hterm : (VChainLookupLocator keyIndex mem inSnap key fuel).2 ≠ .outOfFuel) :
    (∃ ds : List Nat,
      (VChainLookupLocator keyIndex mem inSnap key fuel).1 =
        [.acquireShared, .release] ++ LEvent.setTimestamp ::
          (ds.map LEvent.deref ++ [.clearTimestamp]))
    ∧ (∃ pre, (VChainLookupLocator keyIndex mem inSnap key fuel).1 =
        pre ++ [LEvent.clearTimestamp])
    ∧ ((VChainLookupLocator keyIndex mem inSnap key fuel).1).count LEvent.setTimestamp
        = ((VChainLookupLocator keyIndex mem inSnap key fuel).1).count
            LEvent.clearTimestamp := by
  rcases VChainLookupLocator_trace_shape keyIndex mem inSnap key fuel dsapChain
    hhit hterm with ⟨ds, hds⟩
  refine ⟨⟨ds, by simpa using hds⟩,
    ⟨[.acquireShared, .release, .setTimestamp] ++ ds.map LEvent.deref, by
      simpa using hds⟩, ?_⟩
  rw [hds]
  simp [List.count_append, List.count_cons, count_map_deref_setTimestamp,
    count_map_deref_clearTimestamp]

/-- Claim C7, witness: the bracketing on a concrete two-version chain. -/
theorem C7_epoch_witness :
    ((VChainLookupLocator (fun _ => some 0) (mkChainMem 2) (fun _ => false) 0 3).1).count
        LEvent.setTimestamp
      = ((VChainLookupLocator (fun _ => some 0) (mkChainMem 2)
          (fun _ => false) 0 3).1).count LEvent.clearTimestamp := by
  have h := C7_epoch_publish_retract (fun _ => some 0) (mkChainMem 2)
    (fun _ => false) 0 3 0 rfl (by decide)
  exact h.2.2

/-- Claim C9: On the success path of `Lookup` (a visible version was found),
the epoch is retracted strictly before the call returns the found node: the
trace ends with `ClearTimestamp`, and at the moment of return the number of
publishes equals the number of retractions, so the caller's epoch is no
longer published and the returned node view is not protected by the epoch
bracket. -/
theorem C9_success_retracts_epoch (keyIndex : Nat → Option Nat) (mem : Mem)
    (inSnap : Nat → Bool) (key fuel off : Nat)
    (hfound : (VChainLookupLocator keyIndex mem inSnap key fuel).2 = .found off) :
    (∃ pre, (VChainLookupLocator keyIndex mem inSnap key fuel).1 =
        pre ++ [LEvent.clearTimestamp])
    ∧ ((VChainLookupLocator keyIndex mem inSnap key fuel).1).count LEvent.setTimestamp
        = ((VChainLookupLocator keyIndex mem inSnap key fuel).1).count
            LEvent.clearTimestamp := by
  rcases hk : keyIndex key with _ | dsapChain
  · rw [VChainLookupLocator] at hfound
    simp [hk] at hfound
  · have hterm : (VChainLookupLocator keyIndex mem inSnap key fuel).2 ≠ .outOfFuel := by
      rw [hfound]
      exact fun h => LookupResult.noConfusion h
    rcases VChainLookupLocator_trace_shape keyIndex mem inSnap key fuel dsapChain
      hk hterm with ⟨ds, hds⟩
    refine ⟨⟨[.acquireShared, .release, .setTimestamp] ++ ds.map LEvent.deref, by
      simpa using hds⟩, ?_⟩
    rw [hds]
    simp [List.count_append, List.count_cons, count_map_deref_setTimestamp,
      count_map_deref_clearTimestamp]

/-- Claim C9, witness: the success path on a concrete two-version chain. -/
theorem C9_success_witness :
    ∃ pre, (VChainLookupLocator (fun _ => some 0) (mkChainMem 2)
        (fun _ => false) 0 3).1 = pre ++ [LEvent.clearTimestamp] :=
  (C9_success_retracts_epoch (fun _ => some 0) (mkChainMem 2) (fun _ => false)
    0 3 2 (by decide)).1

/-- Claim C1, witness: on the 3-version chain with the newest version excluded,
`Lookup` returns version 2. -/
theorem C1_lookup_witness :
    (VChainLookupLocator (fun _ => some 0) (mkChainMem 3)
      (fun x => decide (3 - 1 < x)) 0 4).2 = .found 2 := by
  have h := C1_lookup_backward_first_visible 3 1 0 4 (by decide) (by decide)
  simpa using h.2.2.2

/-- Claim C8, counterexample: Two concurrent `Append` calls on the same key
(M = 2), under the interleaving in which thread 2 reads `anchor.prev`
before thread 1's append and performs its exchange after it: both calls run
to completion (no assertion failure, no retry), yet the final chain holds
exactly one node — thread 1's node is lost, refuting "the final chain
contains exactly M pairwise-distinct nodes" for every interleaving. -/
theorem C8_counterexample_lost_append :
    (runSys 0 9 lostAppendSchedule
      ⟨chainInit, ⟨.readTP, 0, 1⟩, ⟨.readTP, 0, 2⟩⟩).t1.pc = .done
    ∧ (runSys 0 9 lostAppendSchedule
        ⟨chainInit, ⟨.readTP, 0, 1⟩, ⟨.readTP, 0, 2⟩⟩).t2.pc = .done
    ∧ backList (runSys 0 9 lostAppendSchedule
        ⟨chainInit, ⟨.readTP, 0, 1⟩, ⟨.readTP, 0, 2⟩⟩).mem 0
        (((runSys 0 9 lostAppendSchedule
          ⟨chainInit, ⟨.readTP, 0, 1⟩, ⟨.readTP, 0, 2⟩⟩).mem 0).dsap_prev) 4
      = [2]
    ∧ ([2] : List Nat).length ≠ 2 := by
  refine ⟨rfl, rfl, rfl, by decide⟩

lemma appendSeq_eq (mem : Mem) (a o : Nat)
    (hflag : (mem (mem a).dsap_prev).flag = .VL_WINNER)
    (ha : (mem a).dsap = a) (ho : (mem o).dsap = o) :
    appendSeq mem a o =
      setFlag (setField (setField (setField (setField
        (setFlag mem (mem a).dsap_prev .VL_APPEND)
          o .fprev (mem a).dsap_prev)
          o .fnext a)
          (mem a).dsap_prev .fnext o)
          a .fprev o)
        (mem a).dsap_prev .VL_WINNER := by
  simp [appendSeq, appendIteration, hflag, ha, ho]

lemma chainSeg_frame (mem mem2 : Mem) (term : Nat) (l : List Nat) :
    ∀ succ, chainSeg mem succ l term →
      (∀ n ∈ l, mem2 n = mem n) →
      (mem2 succ).dsap_prev = (mem succ).dsap_prev →
      (mem2 term).dsap_next = (mem term).dsap_next →
      chainSeg mem2 succ l term := by
  induction l with
  | nil =>
    intro succ h _ hs ht
    exact ⟨hs.trans h.1, ht.trans h.2⟩
  | cons x xs ih =>
    intro succ h hl hs ht
    refine ⟨hs.trans h.1, ?_, ?_⟩
    · rw [hl x (List.mem_cons_self x xs)]
      exact h.2.1
    · exact ih x h.2.2 (fun n hn => hl n (List.mem_cons_of_mem x hn))
        (by rw [hl x (List.mem_cons_self x xs)]) ht

lemma appendSeq_step (mem : Mem) (a o : Nat) (r : List Nat)
    (hinv : chainInv mem a r)
    (ho_self : (mem o).dsap = o) (ho_flag : (mem o).flag = .VL_WINNER)
    (ho_nr : o ∉ r) (ho_na : o ≠ a) (ha_nr : a ∉ r) (hnodup : r.Nodup) :
    chainInv (appendSeq mem a o) a (o :: r)
    ∧ ∀ n, n ≠ a → n ≠ o → n ∉ r → appendSeq mem a o n = mem n := by
  obtain ⟨hseg, ha_self, ha_flag, hnodes⟩ := hinv
  have hoa : ¬ (o = a) := ho_na
  have hao : ¬ (a = o) := fun h => ho_na h.symm
  cases r with
  | nil =>
    obtain ⟨htp, hnx⟩ := hseg
    have hflag : (mem (mem a).dsap_prev).flag = .VL_WINNER := by
      rw [htp]; exact ha_flag
    have happ := appendSeq_eq mem a o hflag ha_self ho_self
    rw [htp] at happ
    refine ⟨⟨⟨?_, ?_, ?_, ?_⟩, ?_, ?_, ?_⟩, ?_⟩
    · rw [happ]; simp [setFlag, setField, hao, hoa]
    · rw [happ]; simp [setFlag, setField, hao, hoa]
    · rw [happ]; simp [setFlag, setField, hao, hoa]
    · rw [happ]; simp [setFlag, setField, hao, hoa]
    · rw [happ]; simp [ha_self]
    · rw [happ]; simp [setFlag, setField, hao, hoa]
    · intro n hn
      rcases List.mem_cons.mp hn with h | h
      · subst h
        constructor
        · rw [happ]; simp [ho_self]
        · rw [happ]; simp [setFlag, setField, hoa, hao, ho_flag]
      · exact absurd h (List.not_mem_nil n)
    · intro n hna hno _
      have hna2 : ¬ (n = a) := hna
      have hno2 : ¬ (n = o) := hno
      rw [happ]
      rw [setFlag_of_ne _ _ _ _ hna2, setField_of_ne _ _ _ _ _ hna2,
        setField_of_ne _ _ _ _ _ hna2, setField_of_ne _ _ _ _ _ hno2,
        setField_of_ne _ _ _ _ _ hno2, setFlag_of_ne _ _ _ _ hna2]
  | cons x xs =>
    obtain ⟨htp, hxn, hseg2⟩ := hseg
    have hx_mem : x ∈ x :: xs := List.mem_cons_self x xs
    obtain ⟨hx_self, hx_flag⟩ := hnodes x hx_mem
    have hflag : (mem (mem a).dsap_prev).flag = .VL_WINNER := by
      rw [htp]; exact hx_flag
    have happ := appendSeq_eq mem a o hflag ha_self ho_self
    rw [htp] at happ
    have hax : ¬ (a = x) := fun h => ha_nr (h ▸ hx_mem)
    have hxa : ¬ (x = a) := fun h => hax h.symm
    have hox : ¬ (o = x) := fun h => ho_nr (h ▸ hx_mem)
    have hxo : ¬ (x = o) := fun h => hox h.symm
    have hxxs : x ∉ xs := (List.nodup_cons.mp hnodup).1
    have hframe : ∀ n, n ≠ a → n ≠ o → n ≠ x → appendSeq mem a o n = mem n := by
      intro n hna hno hnx
      have hna2 : ¬ (n = a) := hna
      have hno2 : ¬ (n = o) := hno
      have hnx2 : ¬ (n = x) := hnx
      rw [happ]
      rw [setFlag_of_ne _ _ _ _ hnx2, setField_of_ne _ _ _ _ _ hna2,
        setField_of_ne _ _ _ _ _ hnx2, setField_of_ne _ _ _ _ _ hno2,
        setField_of_ne _ _ _ _ _ hno2, setFlag_of_ne _ _ _ _ hnx2]
    refine ⟨⟨⟨?_, ?_, ?_, ?_, ?_⟩, ?_, ?_, ?_⟩, ?_⟩
    · rw [happ]; simp [setFlag, setField, hax, hao, hxa, hoa, hox, hxo]
    · rw [happ]; simp [setFlag, setField, hax, hao, hxa, hoa, hox, hxo]
    · rw [happ]; simp [setFlag, setField, hax, hao, hxa, hoa, hox, hxo]
    · rw [happ]; simp [setFlag, setField, hax, hao, hxa, hoa, hox, hxo]
    · refine chainSeg_frame mem (appendSeq mem a o) a xs x hseg2 ?_ ?_ ?_
      · intro n hn
        have h1 : n ≠ a := fun h => ha_nr (h ▸ List.mem_cons_of_mem x hn)
        have h2 : n ≠ o := fun h => ho_nr (h ▸ List.mem_cons_of_mem x hn)
        have h3 : n ≠ x := fun h => hxxs (h ▸ hn)
        exact hframe n h1 h2 h3
      · rw [happ]; simp [setFlag, setField, hxa, hxo, hax, hox]
      · rw [happ]; simp [setFlag, setField, hax, hao]
    · rw [happ]; simp [ha_self]
    · rw [happ]; simp [setFlag, setField, hax, hao]
      exact ha_flag
    · intro n hn
      rcases List.mem_cons.mp hn with h | hn2
      · subst h
        constructor
        · rw [happ]; simp [ho_self]
        · rw [happ]; simp [setFlag, setField, hox, hoa]
          exact ho_flag
      · rcases List.mem_cons.mp hn2 with h | h3
        · subst h
          constructor
          · rw [happ]; simp [hx_self]
          · rw [happ]; simp [setFlag]
        · have h1 : n ≠ a := fun h => ha_nr (h ▸ List.mem_cons_of_mem x h3)
          have h2 : n ≠ o := fun h => ho_nr (h ▸ List.mem_cons_of_mem x h3)
          have h4 : n ≠ x := fun h => hxxs (h ▸ h3)
          rw [hframe n h1 h2 h4]
          exact hnodes n (List.mem_cons_of_mem x h3)
    · intro n hna hno hnr
      have h4 : n ≠ x := fun h => hnr (h ▸ hx_mem)
      exact hframe n hna hno h4

lemma appendAll_inv (a : Nat) :
    ∀ (todo : List Nat) (mem : Mem) (r : List Nat),
      chainInv mem a r →
      (∀ n ∈ todo, (mem n).dsap = n ∧ (mem n).flag = .VL_WINNER) →
      a ∉ r → a ∉ todo → r.Nodup → todo.Nodup →
      (∀ n ∈ todo, n ∉ r) →
      chainInv (appendAll a todo mem) a (todo.reverse ++ r) := by
  intro todo
  induction todo with
  | nil =>
    intro mem r h _ _ _ _ _ _
    simpa using h
  | cons o os ih =>
    intro mem r hinv hfresh har hat hrnd htnd hdisj
    have ho_self := (hfresh o (List.mem_cons_self o os)).1
    have ho_flag := (hfresh o (List.mem_cons_self o os)).2
    have ho_na : o ≠ a := fun h => hat (h ▸ List.mem_cons_self o os)
    have ho_nr : o ∉ r := hdisj o (List.mem_cons_self o os)
    obtain ⟨hinv2, hframe⟩ :=
      appendSeq_step mem a o r hinv ho_self ho_flag ho_nr ho_na har hrnd
    have step := ih (appendSeq mem a o) (o :: r) hinv2 ?_ ?_ ?_ ?_ ?_ ?_
    · have heq : (o :: os).reverse ++ r = os.reverse ++ (o :: r) := by
        simp
      rw [heq]
      exact step
    · intro n hn
      have h1 : n ≠ a := fun h => hat (h ▸ List.mem_cons_of_mem o hn)
      have h2 : n ≠ o := fun h => (List.nodup_cons.mp htnd).1 (h ▸ hn)
      have h3 : n ∉ r := hdisj n (List.mem_cons_of_mem o hn)
      rw [hframe n h1 h2 h3]
      exact hfresh n (List.mem_cons_of_mem o hn)
    · intro h
      rcases List.mem_cons.mp h with h | h
      · exact ho_na h.symm
      · exact har h
    · exact fun h => hat (List.mem_cons_of_mem o h)
    · exact List.nodup_cons.mpr ⟨ho_nr, hrnd⟩
    · exact (List.nodup_cons.mp htnd).2
    · intro n hn hmem
      rcases List.mem_cons.mp hmem with h | h
      · exact (List.nodup_cons.mp htnd).1 (h ▸ hn)
      · exact hdisj n (List.mem_cons_of_mem o hn) h

/-- Claim C8, amended: When the `M` `Append` calls on the same key are
serialized (each consensus iteration completes before the next begins, the
concurrency being only against the cutter), the final chain contains
exactly `M` pairwise-distinct nodes with every `prev`/`next` pair mutual:
appending nodes `1..M` onto the empty chain yields the chain `M, …, 1`
(newest first) below the anchor, mutually linked throughout
(`chainSeg`), with no duplicate and with length `M`.  Under concurrent
interleavings of two appenders this fails (see the counterexample): the
protocol's exchange arbitrates appender against remover, not appender
against appender. -/
theorem C8_serial_appends_build_chain (M : Nat) :
    chainSeg (appendAll 0 ((List.range M).map (fun i => i + 1)) chainInit) 0
      (((List.range M).map (fun i => i + 1)).reverse) 0
    ∧ (((List.range M).map (fun i => i + 1)).reverse).Nodup
    ∧ (((List.range M).map (fun i => i + 1)).reverse).length = M := by
  have base : chainInv chainInit 0 [] := by
    refine ⟨⟨rfl, rfl⟩, rfl, rfl, ?_⟩
    intro n hn
    exact absurd hn (List.not_mem_nil n)
  have hfresh : ∀ n ∈ (List.range M).map (fun i => i + 1),
      (chainInit n).dsap = n ∧ (chainInit n).flag = .VL_WINNER := by
    intro n hn
    rcases List.mem_map.mp hn with ⟨i, _, hi⟩
    have hne : ¬ (n = 0) := by omega
    constructor <;> simp [chainInit, hne]
  have h0 : (0 : Nat) ∉ (List.range M).map (fun i => i + 1) := by
    intro h
    rcases List.mem_map.mp h with ⟨i, _, hi⟩
    omega
  have hnd : ((List.range M).map (fun i => i + 1)).Nodup :=
    (List.nodup_range M).map (fun a b h => by omega)
  have hmain := appendAll_inv 0 ((List.range M).map (fun i => i + 1)) chainInit []
    base hfresh (List.not_mem_nil 0) h0 List.nodup_nil hnd (fun n _ => List.not_mem_nil n)
  refine ⟨?_, ?_, ?_⟩
  · simpa using hmain.1
  · exact List.nodup_reverse.mpr hnd
  · simp

end VChain
